import Mathlib

/-!
Shallow embedding of the Centurion CPU-6 microcode disassembler
(`Microcode.py`, class `MicroCode`).

Conventions of the embedding:
* machine integers are `Nat`; bit extraction mirrors the source's
  `(word >> start) & ~(-1 << size)`;
* the mutable object state (`visited`, `entries`, `selects`, `labels`)
  is threaded explicitly through an `MCState` record, extended with the
  stream of emitted per-address records (`recs`), which the source prints;
* run-aborting Python exceptions (UnboundLocalError in `getSeqCode`,
  IndexError on `self.code[addr]`) are modelled with `Except Err`;
* the driving loops of `disassemble` are written with an explicit fuel
  parameter; exhausting the fuel is a distinguished error, so every
  theorem about a completed run is conditional on an `.ok` result.
-/

set_option maxRecDepth 10000

namespace Microcode

/-- Lowercase hexadecimal digit, as produced by Python `{:x}` formatting. -/
def hexDigit (n : Nat) : Char :=
  if n < 10 then Char.ofNat (48 + n) else Char.ofNat (87 + n)

/-- Fuel-driven minimal-width lowercase hexadecimal writer; the fuel only
needs to dominate the digit count, see `hexStr`. -/
def hexStrAux : Nat → Nat → String
  | 0, _ => ""
  | fuel + 1, n =>
    if n < 16 then String.mk [hexDigit n]
    else hexStrAux fuel (n / 16) ++ String.mk [hexDigit (n % 16)]

/-- Python `f"{n:x}"`. -/
def hexStr (n : Nat) : String := hexStrAux (n + 1) n

/-- Python `f"{n:02x}"`. -/
def hex2 (n : Nat) : String := if n < 16 then "0" ++ hexStr n else hexStr n

/-- Python `f"{n:03x}"`. -/
def hex3 (n : Nat) : String :=
  if n < 16 then "00" ++ hexStr n
  else if n < 256 then "0" ++ hexStr n
  else hexStr n

/-- `MicroCode.getBits`: `(word >> start) & ~(-1 << size)`. -/
def getBits (word start size : Nat) : Nat := (word >>> start) &&& (2 ^ size - 1)

/-- Derivation of the sequencer select lines from the raw select fields
(`seq0_s`, `sh0`, `s21`, `s11` and the final `s1s0` assembly of
`disassembleOne`). -/
def composeSel (seq0Raw shiftRaw muxC extraSeq : Nat) : Nat :=
  let seq0_s := seq0Raw ^^^ 3
  let sh0 := shiftRaw ^^^ 1
  let s21 := muxC ^^^ 1
  let s11 := extraSeq &&& (muxC ^^^ 1)
  (s21 <<< 9) ||| (sh0 <<< 8) ||| (s11 <<< 5) ||| (sh0 <<< 4) ||| seq0_s

/-- Composite mux select `s1s0` of a microword, from bits 29-30, 31, 32, 54. -/
def s1s0Of (word : Nat) : Nat :=
  composeSel (getBits word 29 2) (getBits word 31 1) (getBits word 32 1) (getBits word 54 1)

/-- Counter update of the `defaultdict(int)` histogram `self.selects`:
increments the first binding of `k`, appending a fresh binding at the tail
when absent (Python dict insertion order). -/
def bump : List (Nat × Nat) → Nat → List (Nat × Nat)
  | [], k => [(k, 1)]
  | (k', v) :: rest, k => if k' = k then (k', v + 1) :: rest else (k', v) :: bump rest k

/-- Observed count for select code `k` in the histogram. -/
def lookupCount : List (Nat × Nat) → Nat → Nat
  | [], _ => 0
  | (k', v) :: rest, k => if k' = k then v else lookupCount rest k

/-- `MicroCode.addLabel`: append `text` to the label list of `addr`,
creating the binding when absent. -/
def addLabel : List (Nat × List String) → Nat → String → List (Nat × List String)
  | [], addr, text => [(addr, [text])]
  | (a, ts) :: rest, addr, text =>
    if a = addr then (a, ts ++ [text]) :: rest else (a, ts) :: addLabel rest addr text

/-- Labels bound at an address (empty list when none). -/
def labelsAt : List (Nat × List String) → Nat → List String
  | [], _ => []
  | (a, ts) :: rest, addr => if a = addr then ts else labelsAt rest addr

/-- Condition names selected by the low three bits of `dest` when the
`jsr` flag is low (table `JSR_COND` of `getSeqCode`). -/
def JSR_COND : List String :=
  ["Cycle", "RegIdx & 0x11 == 0", "RegIdx & 1", "REG_MMIO",
   "RegOrPageOut", "DMARequest", "MemFault", "MultiINT"]

/-- `MicroCode.getRegName` (U_C14). -/
def getRegName (mw_a7 : Nat) : String :=
  if mw_a7 ≠ 0 then "RF[RIR.L][ILR]" else "RF[RIR]"

/-- `MicroCode.getDPBus`. The source computes `constant = ~dest & 0xff`;
over nonnegative integers that equals the low byte of `dest` xored
with `0xff`. -/
def getDPBus (d2d3 dest mw_a7 : Nat) : String :=
  let constant := (dest &&& 0xff) ^^^ 0xff
  if d2d3 = 0 then "READ.SWP"
  else if d2d3 = 1 then "READ." ++ getRegName mw_a7
  else if d2d3 = 2 then "READ.MAR.H"
  else if d2d3 = 3 then "READ.MAR.L"
  else if d2d3 = 4 then "READ.SWP  "
  else if d2d3 = 5 then "READ." ++ getRegName mw_a7
  else if d2d3 = 6 then "READ.MAR.H"
  else if d2d3 = 7 then "READ.MAR.L"
  else if d2d3 = 8 then "READ.PF"
  else if d2d3 = 9 then "READ.CCR"
  else if d2d3 = 10 then "READ.D.BUS"
  else if d2d3 = 11 then "READ.MSR"
  else if d2d3 = 12 then "READ.INR"
  else if d2d3 = 13 then "READ.CONST:" ++ hex2 constant
  else ""

/-- Run-aborting failures of the source program:
`unboundLocal` models the UnboundLocalError raised by the two
`jump += ...WARN...` statements of `getSeqCode` (the local `jump` is
unassigned on those paths); `indexOut` models IndexError on
`self.code[addr]`; `fuelOut` is exhaustion of the explicit loop fuel. -/
inductive Err where
  | unboundLocal
  | indexOut
  | fuelOut
  deriving DecidableEq, Repr

/-- `MicroCode.getSwitchTargets`: insert the three nonzero switch branch
targets at the front of the `entries` worklist, in the source's reverse
order (`i = 3 - i`), so they end up ascending at the front. -/
def getSwitchTargets (entries : List Nat) (target step : Nat) : List Nat :=
  [0, 1, 2].foldl (fun es i => (target ||| step * (3 - i)) :: es) entries

/-- Per-slice source resolution loop of `getSeqCode`: for each 4-bit slice
`i`, the 2-bit select chooses fall-through (`0`), address register (`1`),
stack pop (`2`) or the `dest` field (`3`).
Returns `(ar_mask, pop_mask, const_mask, target)`. -/
def sliceFold (s1s0 next dest : Nat) : Nat × Nat × Nat × Nat :=
  [0, 1, 2].foldl
    (fun acc i =>
      let bits := (s1s0 >>> (i * 4)) &&& 3
      let mask := 0xf <<< (i * 4)
      if bits = 0 then (acc.1, acc.2.1, acc.2.2.1 ||| mask, acc.2.2.2 ||| (next &&& mask))
      else if bits = 1 then (acc.1 ||| mask, acc.2.1, acc.2.2.1, acc.2.2.2)
      else if bits = 2 then (acc.1, acc.2.1 ||| mask, acc.2.2.1, acc.2.2.2)
      else (acc.1, acc.2.1, acc.2.2.1 ||| mask, acc.2.2.2 ||| (dest &&& mask)))
    (0, 0, 0, 0)

/-- Rendering of a four-way switch transfer, listing the four branch
targets `target|0`, `target|step`, `target|2*step`, `target|3*step`. -/
def switchStr (name : String) (target step : Nat) : String :=
  "switch " ++ name ++ " jump (" ++ hexStr (target ||| 0) ++ ", " ++
    hexStr (target ||| step) ++ ", " ++ hexStr (target ||| step * 2) ++ ", " ++
    hexStr (target ||| step * 3) ++ ")"

/-- Branch selection of `getSeqCode` after slice composition.
Two source remarks are decisive here: the `!WARN` arms execute
`jump += ...` with the local `jump` still unassigned, which raises
UnboundLocalError (`.error .unboundLocal`); and when the `jsr` flag is
low the source has rebound its local `cond` to a condition-name string,
so none of the numeric `cond ==` comparisons can match (hence the
`jsr ≠ 0` guards). -/
def seqDispatch (entries : List Nat) (next0 target const_mask case_ cond jsr : Nat)
    (push : String) : Except Err (String × Option Nat × String × List Nat) :=
  if case_ = 1 then
    if push ≠ "" then .ok ("jsr " ++ hexStr target, some next0, "", entries ++ [target])
    else .ok ("jump " ++ hexStr target, some target, push, entries)
  else if const_mask &&& 0xf = 0 then .error .unboundLocal
  else if jsr ≠ 0 ∧ cond = 12 then
    .ok (switchStr "flags(ZM)" target 1, some target, push, getSwitchTargets entries target 1)
  else if jsr ≠ 0 ∧ cond = 13 then
    .ok (switchStr "flags(VH)" target 1, some target, push, getSwitchTargets entries target 1)
  else if jsr ≠ 0 ∧ cond = 14 then
    .ok (switchStr "pagetable???" target 1, some target, push, getSwitchTargets entries target 1)
  else if jsr ≠ 0 ∧ cond = 3 then
    .ok (switchStr "flags(IL)" target 4, some target, push, getSwitchTargets entries target 4)
  else if jsr ≠ 0 ∧ cond = 7 then
    .ok (switchStr "interrupts???" target 4, some target, push, getSwitchTargets entries target 4)
  else if jsr ≠ 0 ∧ cond = 11 then
    .ok (switchStr "dma???" target 4, some target, push, getSwitchTargets entries target 4)
  else .error .unboundLocal

/-- General slice-composition arm of `getSeqCode` (the big `else` branch),
including the trailing `STK0`/`SAR` dynamic-mask annotations and the
`; pop` stack annotation. -/
def seqGeneral (entries : List Nat) (next0 dest s1s0 fe pup case_ cond jsr : Nat)
    (push : String) : Except Err (String × Option Nat × String × List Nat) :=
  match sliceFold s1s0 next0 dest with
  | (ar_mask, pop_mask, const_mask, target) =>
    match seqDispatch entries next0 target const_mask case_ cond jsr push with
    | .error e => .error e
    | .ok (jump, nxt, push2, entries2) =>
      let jn1 : String × Option Nat :=
        if pop_mask ≠ 0 then (jump ++ ("|(STK0 & " ++ hexStr pop_mask ++ ")"), none)
        else (jump, nxt)
      let jn2 : String × Option Nat :=
        if ar_mask ≠ 0 then (jn1.1 ++ ("|(SAR & " ++ hexStr ar_mask ++ ")"), none)
        else jn1
      let jump3 := if fe = 0 ∧ pup = 0 then jn2.1 ++ "; pop" else jn2.1
      .ok (jump3, jn2.2, push2, entries2)

/-- Main jump computation of `getSeqCode`: the two reserved-composite
shortcuts, then the general slice-composition arm. -/
def seqMain (entries : List Nat) (next0 dest s1s0 fe pup case_ cond jsr : Nat) (push : String) :
    Except Err (String × Option Nat × String × List Nat) :=
  if s1s0 = 0 ∧ case_ = 1 then .ok ("", some next0, push, entries)
  else if s1s0 = 0x222 ∧ case_ = 1 then
    if fe = 0 ∧ pup = 0 then .ok ("ret", none, push, entries)
    else .ok ("jump STK0", none, push, entries)
  else seqGeneral entries next0 dest s1s0 fe pup case_ cond jsr push

/-- Tail of `getSeqCode` past the jsr early return: the push prefix, the
main jump computation, and the final `op`/`sep`/`jump` assembly of the
transfer string. -/
def seqTail (entries : List Nat) (next0 dest s1s0 fe pup case_ cond jsr : Nat) (jsrPre : String) :
    Except Err (String × Option Nat × List Nat) :=
  let push := if fe = 0 ∧ pup = 1 then "push " ++ hexStr next0 else ""
  match seqMain entries next0 dest s1s0 fe pup case_ cond jsr push with
  | .error e => .error e
  | .ok (jump, nxt, push2, entries2) =>
    if jsrPre ++ push2 = "" then .ok (jump, nxt, entries2)
    else if jump = "" then .ok (jsrPre ++ push2, nxt, entries2)
    else .ok (jsrPre ++ push2 ++ (if push2 ≠ "" then "; " else "") ++ jump, nxt, entries2)

/-- `MicroCode.getSeqCode`. Takes the worklist `entries` as explicit
state and returns `(transfer string, resolved successor, new entries)`.
`none` as successor is the source's `next = None` (unresolved). -/
def getSeqCode (entries0 : List Nat) (next0 dest s1s0 fe pup case_ cond jsr : Nat) :
    Except Err (String × Option Nat × List Nat) :=
  let condName := JSR_COND.getD (dest &&& 7) ""
  let entries := if jsr = 0 then entries0 ++ [dest] else entries0
  if jsr = 0 ∧ s1s0 = 0 then
    .ok ("if " ++ condName ++ " jsr " ++ hexStr dest, some next0, entries)
  else
    let jsrPre := if jsr = 0 then "if " ++ condName ++ " jsr " ++ hexStr dest ++ " else " else ""
    seqTail entries next0 dest s1s0 fe pup case_ cond jsr jsrPre

/-- Printed record columns retained for verification: the data-path bus
column and the sequencer transfer column. The remaining columns of the
printed line are independent pure table lookups with no effect on
control flow or on the mutable state. -/
structure DecRec where
  dpBus : String
  seqCode : String
  deriving DecidableEq, Repr

/-- Mutable state of the `MicroCode` object, plus the stream of emitted
per-address records (`recs`, in print order; `none` marks an `unused`
zero word). -/
structure MCState where
  visited : List Nat
  entries : List Nat
  selects : List (Nat × Nat)
  labels : List (Nat × List String)
  recs : List (Nat × Option DecRec)
  deriving DecidableEq, Repr

/-- `MicroCode.disassembleOne`: decode one word, accumulate the select
histogram, resolve the transfer, and return the successor address. -/
def disassembleOne (st : MCState) (addr word : Nat) : Except Err (MCState × Option Nat) :=
  if word = 0 then .ok ({ st with recs := st.recs ++ [(addr, none)] }, none)
  else
    let d2d3 := getBits word 0 4
    let jsr := getBits word 15 1
    let dest := getBits word 16 11
    let fe := getBits word 27 1
    let pup := getBits word 28 1
    let case_ := getBits word 33 1
    let cond := getBits word 20 4
    let mw_a7 := getBits word 55 1
    let s1s0 := s1s0Of word
    let selects2 := bump st.selects s1s0
    match getSeqCode st.entries (addr + 1) dest s1s0 fe pup case_ cond jsr with
    | .error e => .error e
    | .ok (seqCode, nxt, entries2) =>
      let recs2 := st.recs ++ [(addr, some ⟨getDPBus d2d3 dest mw_a7, seqCode⟩)]
      .ok ({ st with selects := selects2, entries := entries2, recs := recs2 }, nxt)

/-- List indexing `self.code[addr]`; IndexError when out of range. -/
def romGet (code : List Nat) (addr : Nat) : Except Err Nat :=
  if h : addr < code.length then .ok (code.get ⟨addr, h⟩) else .error .indexOut

/-- Inner thread loop of `disassembleEntries`:
`while not (addr is None or addr in visited): visited.add(addr); addr = disassembleOne(addr, code[addr])`. -/
def innerLoop : Nat → List Nat → MCState → Option Nat → Except Err MCState
  | 0, _, _, _ => .error .fuelOut
  | _ + 1, _, st, none => .ok st
  | fuel + 1, code, st, some addr =>
    if addr ∈ st.visited then .ok st
    else
      let st1 := { st with visited := addr :: st.visited }
      match romGet code addr with
      | .error e => .error e
      | .ok word =>
        match disassembleOne st1 addr word with
        | .error e => .error e
        | .ok (st2, nxt) => innerLoop fuel code st2 nxt

/-- `MicroCode.disassembleEntries`: drain the worklist, skipping visited
entries and following each thread of straight-line successors. -/
def entriesLoop : Nat → List Nat → MCState → Except Err MCState
  | 0, _, _ => .error .fuelOut
  | fuel + 1, code, st =>
    match st.entries with
    | [] => .ok st
    | addr :: rest =>
      let st1 := { st with entries := rest }
      if addr ∈ st1.visited then entriesLoop fuel code st1
      else
        match innerLoop (fuel + 1) code st1 (some addr) with
        | .error e => .error e
        | .ok st2 => entriesLoop fuel code st2

/-- `MicroCode.getNextNotVisited`, iterating `i` from `addr` to
`len - 1`; the countdown argument of the helper is `len - addr`. -/
def gnnvAux (visited : List Nat) : Nat → Nat → Option Nat
  | _, 0 => none
  | addr, k + 1 => if addr ∈ visited then gnnvAux visited (addr + 1) k else some addr

/-- First not-yet-visited address at or after `addr`, `none` if all
addresses up to `len - 1` are visited. -/
def getNextNotVisited (len : Nat) (visited : List Nat) (addr : Nat) : Option Nat :=
  gnnvAux visited addr (len - addr)

/-- Exhaustive-scan loop of `MicroCode.disassemble`: find the first
unvisited address, synthesize an `Unknown_entry` label, queue it, drain
the worklist, and resume the scan after it. -/
def scanLoop : Nat → List Nat → MCState → Nat → Except Err MCState
  | 0, _, _, _ => .error .fuelOut
  | fuel + 1, code, st, addr =>
    match getNextNotVisited code.length st.visited addr with
    | none => .ok st
    | some a =>
      let labels2 := addLabel st.labels a ("Unknown_entry_" ++ hex3 a)
      let st1 := { st with labels := labels2, entries := st.entries ++ [a] }
      match entriesLoop (fuel + 1) code st1 with
      | .error e => .error e
      | .ok st2 => scanLoop fuel code st2 (a + 1)

/-- Opcode-map seeding loop of `MicroCode.__init__`: for each opcode `i`
with map value `v`, bind label `Op_<i>` at `v + 0x100` and append that
address to the entry worklist. -/
def initSeed (labels : List (Nat × List String)) (entries : List Nat) (opcode : Nat) :
    List Nat → List (Nat × List String) × List Nat
  | [] => (labels, entries)
  | v :: rest =>
    initSeed (addLabel labels (v + 0x100) ("Op_" ++ hex2 opcode))
      (entries ++ [v + 0x100]) (opcode + 1) rest

/-- Initial state of a run: entry point `0` seeded first, then the
opcode-map-derived entry addresses and labels. -/
def initState (opcMap : List Nat) : MCState :=
  let seeded := initSeed [] [0] 0 opcMap
  { visited := [], entries := seeded.2, selects := [], labels := seeded.1, recs := [] }

/-- `MicroCode.disassemble`: drain the seeded worklist, then scan the
address space (starting the cursor at 1, as the source does) until every
address is visited. -/
def disassemble (fuel : Nat) (code opcMap : List Nat) : Except Err MCState :=
  match entriesLoop fuel code (initState opcMap) with
  | .error e => .error e
  | .ok st => scanLoop fuel code st 1

/-- Sample microword for the end-to-end constant-load scenario:
dpSel = 13, jsrFlag = 1, dest = 0x0FF, stackFE = 1, seq0Raw = 3,
shiftRaw = 1, muxC = 1, caseFlag = 1, so that the derived composite
mux select is 0x000 (every slice sourced from the fall-through
address). -/
def c2Word : Nat := 0x3E8FF800D

/-- Final state of a completed run over the two-word ROM
`[c2Word, 0]` with an empty opcode map. -/
def c2FinalState : MCState :=
  ⟨[1, 0], [], [(0, 1)], [], [(0, some ⟨"READ.CONST:00", ""⟩), (1, none)]⟩

/-- Explorer invariant: the visited set never holds duplicates, no
address is decoded (printed) twice, and every decoded address has been
marked visited. -/
def Inv (st : MCState) : Prop :=
  st.visited.Nodup ∧ (st.recs.map Prod.fst).Nodup ∧
    ∀ a ∈ st.recs.map Prod.fst, a ∈ st.visited

/-- Final state of a completed run over the two-word all-zero ROM with
an empty opcode map. -/
def c3SampleState : MCState :=
  ⟨[1, 0], [], [], [(1, ["Unknown_entry_001"])], [(0, none), (1, none)]⟩

/-! ## Helper lemmas -/

theorem getBits_lt (w s n : Nat) : getBits w s n < 2 ^ n :=
  Nat.lt_of_le_of_lt Nat.and_le_right (Nat.sub_lt (Nat.pow_pos (by norm_num)) (by norm_num))

theorem string_append_eq_empty {a b : String} : a ++ b = "" ↔ a = "" ∧ b = "" := by
  constructor
  · intro h
    have hd : (a ++ b).data = ("" : String).data := congrArg String.data h
    rw [String.data_append] at hd
    rcases List.append_eq_nil.mp hd with ⟨h1, h2⟩
    exact ⟨String.ext h1, String.ext h2⟩
  · rintro ⟨rfl, rfl⟩
    rfl

theorem getSwitchTargets_eq (entries : List Nat) (target step : Nat) :
    getSwitchTargets entries target step =
      (target ||| step) :: (target ||| step * 2) :: (target ||| step * 3) :: entries := by
  show (target ||| step * 1) :: (target ||| step * 2) :: (target ||| step * 3) :: entries = _
  rw [Nat.mul_one]

theorem or_small_shiftRight (t i k : Nat) (hi : i < 2 ^ k) : (t ||| i) >>> k = t >>> k := by
  apply Nat.eq_of_testBit_eq
  intro b
  rw [Nat.testBit_shiftRight, Nat.testBit_shiftRight, Nat.testBit_or,
    Nat.testBit_lt_two_pow
      (Nat.lt_of_lt_of_le hi (Nat.pow_le_pow_right (by norm_num) (Nat.le_add_right k b)))]
  simp

theorem or_aligned_and_three (t i : Nat) : (t ||| 4 * i) &&& 3 = t &&& 3 := by
  have h4 : 4 * i &&& 3 = 4 * i % 4 := Nat.and_pow_two_sub_one_eq_mod (4 * i) 2
  rw [Nat.and_distrib_right, h4, Nat.mul_mod_right, Nat.or_zero]

theorem mem_labelsAt_addLabel_self (ls : List (Nat × List String)) (a : Nat) (t : String) :
    t ∈ labelsAt (addLabel ls a t) a := by
  induction ls with
  | nil => simp [addLabel, labelsAt]
  | cons p rest ih =>
    obtain ⟨b, ts⟩ := p
    by_cases hb : b = a
    · subst hb
      simp [addLabel, labelsAt]
    · simp [addLabel, labelsAt, hb, ih]

theorem mem_labelsAt_addLabel (ls : List (Nat × List String)) (a a2 : Nat) (t t2 : String)
    (h : t ∈ labelsAt ls a) : t ∈ labelsAt (addLabel ls a2 t2) a := by
  induction ls with
  | nil => simp [labelsAt] at h
  | cons p rest ih =>
    obtain ⟨b, ts⟩ := p
    by_cases hb2 : b = a2 <;> by_cases hb : b = a <;>
      simp_all [addLabel, labelsAt]

theorem initSeed_fst_mono (l : List Nat) :
    ∀ ls es k a t, t ∈ labelsAt ls a → t ∈ labelsAt (initSeed ls es k l).1 a := by
  induction l with
  | nil =>
    intro ls es k a t h
    simpa [initSeed] using h
  | cons v rest ih =>
    intro ls es k a t h
    simp only [initSeed]
    exact ih _ _ _ _ _ (mem_labelsAt_addLabel _ _ _ _ _ h)

theorem initSeed_snd (l : List Nat) :
    ∀ ls es k, (initSeed ls es k l).2 = es ++ l.map (fun v => v + 0x100) := by
  induction l with
  | nil =>
    intro ls es k
    simp [initSeed]
  | cons v rest ih =>
    intro ls es k
    simp [initSeed, ih]

theorem initSeed_label_mem (l : List Nat) :
    ∀ ls es k i (h : i < l.length),
      ("Op_" ++ hex2 (k + i)) ∈ labelsAt (initSeed ls es k l).1 (l.get ⟨i, h⟩ + 0x100) := by
  induction l with
  | nil =>
    intro ls es k i h
    simp at h
  | cons v rest ih =>
    intro ls es k i h
    cases i with
    | zero =>
      simp only [initSeed, List.get]
      rw [Nat.add_zero]
      exact initSeed_fst_mono rest _ _ _ _ _ (mem_labelsAt_addLabel_self ls (v + 0x100) _)
    | succ j =>
      have hj : j < rest.length := by simpa using h
      have := ih (addLabel ls (v + 0x100) ("Op_" ++ hex2 k)) (es ++ [v + 0x100]) (k + 1) j hj
      have harith : k + 1 + j = k + (j + 1) := by omega
      rw [harith] at this
      simpa [initSeed] using this

theorem lookupCount_bump (l : List (Nat × Nat)) (k j : Nat) :
    lookupCount (bump l k) j = lookupCount l j + (if j = k then 1 else 0) := by
  induction l with
  | nil =>
    by_cases hj : j = k <;> simp [bump, lookupCount, hj] <;> omega
  | cons p rest ih =>
    obtain ⟨k2, v⟩ := p
    by_cases h2 : k2 = k <;> by_cases hj : k2 = j <;>
      simp_all [bump, lookupCount] <;> omega

theorem composeSel_facts (a b c d : Nat) (ha : a < 4) (hb : b < 2) (hc : c < 2) (hd : d < 2) :
    ((composeSel a b c d >>> 4) &&& 1) = ((composeSel a b c d >>> 8) &&& 1) ∧
    (((composeSel a b c d >>> 5) &&& 1) = 0 ∨ ((composeSel a b c d >>> 9) &&& 1) = 1) ∧
    (((composeSel a b c d >>> 4) &&& 3) < 2 ∨ ((composeSel a b c d >>> 8) &&& 3) ≥ 2) := by
  interval_cases a <;> interval_cases b <;> interval_cases c <;> interval_cases d <;> decide

theorem subset_getSwitchTargets (entries : List Nat) (target step : Nat) :
    entries ⊆ getSwitchTargets entries target step := by
  rw [getSwitchTargets_eq]
  exact fun x hx => by simp [hx]

theorem seqDispatch_subset {entries : List Nat} {next0 target const_mask case_ cond jsr : Nat}
    {push : String} {r : String × Option Nat × String × List Nat}
    (h : seqDispatch entries next0 target const_mask case_ cond jsr push = .ok r) :
    entries ⊆ r.2.2.2 := by
  unfold seqDispatch at h
  split_ifs at h <;>
    first
      | exact Except.noConfusion h
      | (cases h; first
          | exact List.Subset.refl _
          | exact List.subset_append_left _ _
          | exact subset_getSwitchTargets _ _ _)

theorem seqGeneral_subset {entries : List Nat} {next0 dest s1s0 fe pup case_ cond jsr : Nat}
    {push : String} {r : String × Option Nat × String × List Nat}
    (h : seqGeneral entries next0 dest s1s0 fe pup case_ cond jsr push = .ok r) :
    entries ⊆ r.2.2.2 := by
  rcases hsf : sliceFold s1s0 next0 dest with ⟨ar, pop, cst, tgt⟩
  simp only [seqGeneral, hsf] at h
  rcases hd : seqDispatch entries next0 tgt cst case_ cond jsr push with e | q
  · rw [hd] at h
    exact Except.noConfusion h
  · obtain ⟨j2, n2, p2, e2⟩ := q
    simp only [hd] at h
    cases h
    have hs := seqDispatch_subset hd
    exact hs

theorem seqMain_subset {entries : List Nat} {next0 dest s1s0 fe pup case_ cond jsr : Nat}
    {push : String} {r : String × Option Nat × String × List Nat}
    (h : seqMain entries next0 dest s1s0 fe pup case_ cond jsr push = .ok r) :
    entries ⊆ r.2.2.2 := by
  unfold seqMain at h
  split_ifs at h <;>
    first
      | (cases h; exact List.Subset.refl _)
      | exact seqGeneral_subset h

theorem seqTail_subset {entries : List Nat} {next0 dest s1s0 fe pup case_ cond jsr : Nat}
    {jsrPre : String} {r : String × Option Nat × List Nat}
    (h : seqTail entries next0 dest s1s0 fe pup case_ cond jsr jsrPre = .ok r) :
    entries ⊆ r.2.2 := by
  simp only [seqTail] at h
  rcases hm : seqMain entries next0 dest s1s0 fe pup case_ cond jsr
      (if fe = 0 ∧ pup = 1 then "push " ++ hexStr next0 else "") with e | q
  · rw [hm] at h
    exact Except.noConfusion h
  · obtain ⟨jj, nn, pp, ee⟩ := q
    simp only [hm] at h
    have hs := seqMain_subset hm
    split_ifs at h <;> cases h <;> exact hs

theorem getSeqCode_subset {entries0 : List Nat} {next0 dest s1s0 fe pup case_ cond jsr : Nat}
    {r : String × Option Nat × List Nat}
    (h : getSeqCode entries0 next0 dest s1s0 fe pup case_ cond jsr = .ok r) :
    entries0 ⊆ r.2.2 := by
  have hE : entries0 ⊆ (if jsr = 0 then entries0 ++ [dest] else entries0) := by
    split_ifs
    · exact List.subset_append_left _ _
    · exact List.Subset.refl _
  simp only [getSeqCode] at h
  by_cases h0 : jsr = 0 ∧ s1s0 = 0
  · rw [if_pos h0] at h
    cases h
    exact hE
  · rw [if_neg h0] at h
    exact hE.trans (seqTail_subset h)

theorem disassembleOne_ok {st : MCState} {addr word : Nat} {st2 : MCState} {nxt : Option Nat}
    (h : disassembleOne st addr word = .ok (st2, nxt)) :
    st2.visited = st.visited ∧ st.entries ⊆ st2.entries ∧
      ∃ r, st2.recs = st.recs ++ [(addr, r)] := by
  by_cases hw : word = 0
  · rw [disassembleOne, if_pos hw] at h
    cases h
    exact ⟨rfl, List.Subset.refl _, ⟨none, rfl⟩⟩
  · simp only [disassembleOne, if_neg hw] at h
    rcases hgs : getSeqCode st.entries (addr + 1) (getBits word 16 11) (s1s0Of word)
        (getBits word 27 1) (getBits word 28 1) (getBits word 33 1) (getBits word 20 4)
        (getBits word 15 1) with e | q
    · rw [hgs] at h
      exact Except.noConfusion h
    · obtain ⟨s, n, e2⟩ := q
      simp only [hgs] at h
      cases h
      have hs := getSeqCode_subset hgs
      exact ⟨rfl, hs, ⟨_, rfl⟩⟩

theorem innerLoop_spec :
    ∀ (fuel : Nat) (code : List Nat) (st : MCState) (a? : Option Nat) (st2 : MCState),
      innerLoop fuel code st a? = .ok st2 →
      st.visited ⊆ st2.visited ∧ st.entries ⊆ st2.entries ∧
        (∀ a, a? = some a → a ∈ st2.visited) ∧ (Inv st → Inv st2) := by
  intro fuel
  induction fuel with
  | zero =>
    intro code st a? st2 h
    exact Except.noConfusion h
  | succ f ih =>
    intro code st a? st2 h
    match a? with
    | none =>
      cases h
      exact ⟨List.Subset.refl _, List.Subset.refl _, fun a ha => Option.noConfusion ha, id⟩
    | some addr =>
      rw [innerLoop] at h
      split_ifs at h with hv
      · cases h
        exact ⟨List.Subset.refl _, List.Subset.refl _,
          fun a ha => by cases ha; exact hv, id⟩
      · rcases hr : romGet code addr with e | word
        · simp only [hr] at h
          exact Except.noConfusion h
        · simp only [hr] at h
          rcases hd : disassembleOne { st with visited := addr :: st.visited } addr word
              with e | q
          · simp only [hd] at h
            exact Except.noConfusion h
          · obtain ⟨st3, nxt⟩ := q
            simp only [hd] at h
            obtain ⟨hvis, hent, ⟨r, hrecs⟩⟩ := disassembleOne_ok hd
            obtain ⟨ih1, ih2, ih3, ih4⟩ := ih code st3 nxt st2 h
            refine ⟨?_, ?_, ?_, ?_⟩
            · intro x hx
              exact ih1 (hvis ▸ (List.mem_cons_of_mem _ hx))
            · intro x hx
              exact ih2 (hent hx)
            · intro a ha
              cases ha
              exact ih1 (hvis ▸ List.mem_cons_self _ _)
            · intro hInv
              apply ih4
              obtain ⟨hnd, hrnd, hsub⟩ := hInv
              refine ⟨?_, ?_, ?_⟩
              · rw [hvis]
                exact List.nodup_cons.mpr ⟨hv, hnd⟩
              · rw [hrecs]
                rw [List.map_append, List.nodup_append]
                refine ⟨hrnd, by simp, ?_⟩
                intro x hx hx2
                simp at hx2
                subst hx2
                exact hv (hsub _ hx)
              · intro a ha
                rw [hrecs] at ha
                rw [List.map_append] at ha
                rcases List.mem_append.mp ha with ha | ha
                · rw [hvis]
                  exact List.mem_cons_of_mem _ (hsub _ ha)
                · simp at ha
                  subst ha
                  rw [hvis]
                  exact List.mem_cons_self _ _

theorem entriesLoop_spec :
    ∀ (fuel : Nat) (code : List Nat) (st : MCState) (st2 : MCState),
      entriesLoop fuel code st = .ok st2 →
      st.visited ⊆ st2.visited ∧ (∀ e ∈ st.entries, e ∈ st2.visited) ∧ (Inv st → Inv st2) := by
  intro fuel
  induction fuel with
  | zero =>
    intro code st st2 h
    exact Except.noConfusion h
  | succ f ih =>
    intro code st st2 h
    rw [entriesLoop] at h
    rcases hE : st.entries with _ | ⟨addr, rest⟩
    · simp only [hE] at h
      cases h
      refine ⟨List.Subset.refl _, ?_, id⟩
      intro e he
      exact absurd he (List.not_mem_nil e)
    · simp only [hE] at h
      split_ifs at h with hv
      · obtain ⟨e1, e2, e3⟩ := ih code { st with entries := rest } st2 h
        refine ⟨e1, ?_, e3⟩
        intro e he
        rcases List.mem_cons.mp he with rfl | he2
        · exact e1 hv
        · exact e2 e he2
      · rcases hι : innerLoop (f + 1) code { st with entries := rest } (some addr)
            with e | st3
        · rw [hι] at h
          exact Except.noConfusion h
        · rw [hι] at h
          obtain ⟨i1, i2, i3, i4⟩ := innerLoop_spec (f + 1) code _ (some addr) st3 hι
          obtain ⟨e1, e2, e3⟩ := ih code st3 st2 h
          refine ⟨fun x hx => e1 (i1 hx), ?_, fun hI => e3 (i4 hI)⟩
          intro e he
          rcases List.mem_cons.mp he with rfl | he2
          · exact e1 (i3 _ rfl)
          · exact e2 e (i2 he2)

theorem gnnvAux_none :
    ∀ (k addr : Nat) (visited : List Nat), gnnvAux visited addr k = none →
      ∀ i, addr ≤ i → i < addr + k → i ∈ visited := by
  intro k
  induction k with
  | zero =>
    intro addr visited h i h1 h2
    omega
  | succ kk ih =>
    intro addr visited h i h1 h2
    rw [gnnvAux] at h
    split_ifs at h with hv
    · by_cases hi : i = addr
      · subst hi
        exact hv
      · exact ih (addr + 1) visited h i (by omega) (by omega)

theorem gnnvAux_some :
    ∀ (k addr : Nat) (visited : List Nat) (a : Nat), gnnvAux visited addr k = some a →
      addr ≤ a ∧ a < addr + k ∧ a ∉ visited ∧ ∀ i, addr ≤ i → i < a → i ∈ visited := by
  intro k
  induction k with
  | zero =>
    intro addr visited a h
    exact Option.noConfusion h
  | succ kk ih =>
    intro addr visited a h
    rw [gnnvAux] at h
    split_ifs at h with hv
    · obtain ⟨g1, g2, g3, g4⟩ := ih (addr + 1) visited a h
      refine ⟨by omega, by omega, g3, ?_⟩
      intro i hi1 hi2
      by_cases hi : i = addr
      · subst hi
        exact hv
      · exact g4 i (by omega) hi2
    · cases h
      exact ⟨Nat.le_refl _, by omega, hv, fun i hi1 hi2 => by omega⟩

theorem getNextNotVisited_none {len : Nat} {visited : List Nat} {addr : Nat}
    (h : getNextNotVisited len visited addr = none) :
    ∀ i, addr ≤ i → i < len → i ∈ visited := by
  intro i h1 h2
  exact gnnvAux_none (len - addr) addr visited h i h1 (by omega)

theorem getNextNotVisited_some {len : Nat} {visited : List Nat} {addr a : Nat}
    (h : getNextNotVisited len visited addr = some a) :
    addr ≤ a ∧ a < len ∧ a ∉ visited ∧ ∀ i, addr ≤ i → i < a → i ∈ visited := by
  obtain ⟨g1, g2, g3, g4⟩ := gnnvAux_some (len - addr) addr visited a h
  exact ⟨g1, by omega, g3, g4⟩

theorem scanLoop_spec :
    ∀ (fuel : Nat) (code : List Nat) (st : MCState) (c : Nat) (st2 : MCState),
      scanLoop fuel code st c = .ok st2 → Inv st →
      (∀ x, x < c → x < code.length → x ∈ st.visited) →
      Inv st2 ∧ ∀ x, x < code.length → x ∈ st2.visited := by
  intro fuel
  induction fuel with
  | zero =>
    intro code st c st2 h
    exact fun _ _ => Except.noConfusion h
  | succ f ih =>
    intro code st c st2 h hI hP
    rw [scanLoop] at h
    rcases hg : getNextNotVisited code.length st.visited c with _ | a
    · simp only [hg] at h
      cases h
      refine ⟨hI, ?_⟩
      intro x hx
      by_cases hlt : x < c
      · exact hP x hlt hx
      · exact getNextNotVisited_none hg x (by omega) hx
    · simp only [hg] at h
      obtain ⟨hca, halen, hanv, hint⟩ := getNextNotVisited_some hg
      rcases he : entriesLoop (f + 1) code
          { st with labels := addLabel st.labels a ("Unknown_entry_" ++ hex3 a),
                    entries := st.entries ++ [a] } with e | st3
      · simp only [he] at h
        exact Except.noConfusion h
      · simp only [he] at h
        obtain ⟨E1, E2, E3⟩ := entriesLoop_spec (f + 1) code _ st3 he
        have ha3 : a ∈ st3.visited := E2 a (List.mem_append_right _ (List.mem_singleton.mpr rfl))
        refine ih code st3 (a + 1) st2 h (E3 hI) ?_
        intro x hx hxlen
        by_cases hxa : x = a
        · subst hxa
          exact ha3
        · by_cases hxc : x < c
          · exact E1 (hP x hxc hxlen)
          · exact E1 (hint x (by omega) (by omega))

/-! ## Claim theorems -/

/-- C1: the claim states that a decode anomaly (a switch word whose
`cond` is outside the six valid encodings, or whose low address nibble
is not constant-sourced) is recorded as a warning and the run continues.
The source instead executes `jump += '...WARN...'` with the local `jump`
unassigned on both anomaly paths, raising UnboundLocalError and aborting
the run. This theorem evaluates the resolver at one failing input of
each kind: `cond = 5` (invalid selector, constant low slice from
`dest`), and `cond = 12` (valid selector, but the low slice sourced from
the address register so that `const_mask & 0xf == 0`). -/
theorem c1_decode_anomaly_aborts :
    getSeqCode [] 1 0x55 0x003 1 1 0 5 1 = .error .unboundLocal ∧
    getSeqCode [] 1 0x55 0x001 1 1 0 12 1 = .error .unboundLocal := by
  constructor <;> rfl

/-- C2 counterexample: on the claim's exact input — a ROM of exactly one
word `c2Word` (dpSel = 13, dest = 0x0FF, caseFlag = 1, all-constant
composite) — the run does not finish with address 1 queued: the resolver
yields an *empty* transfer string (not `jump 1`) with successor 1, the
explorer continues directly into address 1, and indexing the one-word
ROM at address 1 raises IndexError. -/
theorem c2_jump1_counterexample :
    disassemble 32 [c2Word] [] = .error .indexOut ∧
    getSeqCode [0] 1 0xFF 0 1 0 1 15 1 = .ok ("", some 1, [0]) ∧
    "" ≠ "jump 1" := by
  refine ⟨rfl, rfl, by decide⟩

/-- C2 amended: for the ROM `[c2Word, 0]` (the scenario word followed by
an unused word so the fall-through address exists), the decoded record
for address 0 shows the constant-load micro-op `READ.CONST:00`
(constant 0x00, the complement of dest's low byte) and an *empty*
transfer string, whose meaning is fall-through; the successor of
address 0 resolves to 1, and the explorer continues directly into
address 1 (both end up visited) instead of queuing it: the final
worklist is empty and no entry was ever added for address 1. -/
theorem c2_amended_run :
    disassemble 32 [c2Word, 0] [] = .ok c2FinalState ∧
    disassembleOne (initState []) 0 c2Word =
      .ok ({ initState [] with selects := [(0, 1)],
                               recs := [(0, some ⟨"READ.CONST:00", ""⟩)] }, some 1) ∧
    getBits c2Word 0 4 = 13 ∧ getBits c2Word 16 11 = 0xFF ∧
    getBits c2Word 33 1 = 1 ∧ s1s0Of c2Word = 0 := by
  refine ⟨rfl, rfl, rfl, rfl, rfl, rfl⟩

/-- C4 counterexample: for a concrete valid low-pair switch
(`cond` = 0b1100, target 0x124), only the three nonzero-offset branch
targets are inserted into the worklist; `target|0` = 0x124 is not
registered as an entry point — it becomes the resolved successor that
the caller continues from directly. -/
theorem c4_four_targets_counterexample :
    getSeqCode [] 0x120 4 3 1 0 0 12 1 =
      .ok ("switch flags(ZM) jump (124, 125, 126, 127)", some 0x124, [0x125, 0x126, 0x127]) ∧
    (0x124 : Nat) ∉ [0x125, 0x126, 0x127] := by
  refine ⟨rfl, by decide⟩

/-- C4 counterexample continued in `c4_switch_family` (amended claim):
for every valid switch word reaching the dispatch (caseFlag clear,
`jsr` flag set so the numeric `cond` comparison can fire, and the low
address slice constant-sourced), the low-pair family produces branch
targets `target|0..3` and the high-pair family `target|0,4,8,12`; the
*three nonzero-offset* targets are inserted at the front of the
worklist in descending order, ending up ascending at the front, while
`target|0` becomes the resolved successor (when no slice is dynamic)
that the explorer continues from directly; the targets differ from
`target` only in bits 0-1 (stride 1) resp. only in bits 2-3
(stride 4). -/
theorem c4_switch_family (entries : List Nat) (next dest s1s0 pup cond : Nat)
    (ar pop cst tgt : Nat) (hslice : sliceFold s1s0 next dest = (ar, pop, cst, tgt))
    (hlow : cst &&& 0xf ≠ 0) :
    ((cond = 12 ∨ cond = 13 ∨ cond = 14) → ∃ nm,
      getSeqCode entries next dest s1s0 1 pup 0 cond 1 =
        .ok (switchStr nm tgt 1 ++
               (if pop ≠ 0 then "|(STK0 & " ++ hexStr pop ++ ")" else "") ++
               (if ar ≠ 0 then "|(SAR & " ++ hexStr ar ++ ")" else ""),
             (if pop = 0 ∧ ar = 0 then some tgt else none),
             (tgt ||| 1) :: (tgt ||| 2) :: (tgt ||| 3) :: entries)) ∧
    ((cond = 3 ∨ cond = 7 ∨ cond = 11) → ∃ nm,
      getSeqCode entries next dest s1s0 1 pup 0 cond 1 =
        .ok (switchStr nm tgt 4 ++
               (if pop ≠ 0 then "|(STK0 & " ++ hexStr pop ++ ")" else "") ++
               (if ar ≠ 0 then "|(SAR & " ++ hexStr ar ++ ")" else ""),
             (if pop = 0 ∧ ar = 0 then some tgt else none),
             (tgt ||| 4) :: (tgt ||| 8) :: (tgt ||| 12) :: entries)) ∧
    (∀ i, i < 4 → (tgt ||| i) >>> 2 = tgt >>> 2) ∧
    (∀ i, i ≤ 3 → (tgt ||| 4 * i) >>> 4 = tgt >>> 4 ∧ (tgt ||| 4 * i) &&& 3 = tgt &&& 3) := by
  refine ⟨?_, ?_, ?_, ?_⟩
  · rintro (rfl | rfl | rfl) <;>
      [refine ⟨"flags(ZM)", ?_⟩; refine ⟨"flags(VH)", ?_⟩; refine ⟨"pagetable???", ?_⟩] <;>
    · simp only [getSeqCode, seqTail, seqMain, seqGeneral, seqDispatch, hslice, getSwitchTargets_eq]
      norm_num [hlow]
      split_ifs <;> simp_all [String.append_empty]
  · rintro (rfl | rfl | rfl) <;>
      [refine ⟨"flags(IL)", ?_⟩; refine ⟨"interrupts???", ?_⟩; refine ⟨"dma???", ?_⟩] <;>
    · simp only [getSeqCode, seqTail, seqMain, seqGeneral, seqDispatch, hslice, getSwitchTargets_eq]
      norm_num [hlow]
      split_ifs <;> simp_all [String.append_empty]
  · intro i hi
    exact or_small_shiftRight tgt i 2 hi
  · intro i hi
    exact ⟨or_small_shiftRight tgt (4 * i) 4 (by omega), or_aligned_and_three tgt i⟩

/-- C4 witness: the amended claim evaluated at the concrete low-pair
switch word of the counterexample (cond = 0b1100, target 0x124). -/
theorem c4_switch_family_witness : ∃ nm,
    getSeqCode [] 0x120 4 3 1 0 0 12 1 =
      .ok (switchStr nm 0x124 1 ++
             (if (0 : Nat) ≠ 0 then "|(STK0 & " ++ hexStr 0 ++ ")" else "") ++
             (if (0 : Nat) ≠ 0 then "|(SAR & " ++ hexStr 0 ++ ")" else ""),
           (if (0 : Nat) = 0 ∧ (0 : Nat) = 0 then some 0x124 else none),
           (0x124 ||| 1) :: (0x124 ||| 2) :: (0x124 ||| 3) :: []) :=
  (c4_switch_family [] 0x120 4 3 0 12 0 0 0xfff 0x124 rfl (by decide)).1 (Or.inl rfl)

/-- C5 counterexample: a microword with all-zero composite and caseFlag
set, but with stack control fe = 0, pup = 1, yields the transfer
`push 1`, not the empty transfer the claim promises for *every* such
word. -/
theorem c5_push_counterexample :
    getSeqCode [] 1 0 0 0 1 1 0 1 = .ok ("push 1", some 1, []) ∧ "push 1" ≠ "" := by
  refine ⟨rfl, by decide⟩

/-- C5 amended: for a word with all-zero composite and caseFlag set, the
transfer is empty provided the `jsr` flag is set and the stack control
is not a push (those two cases only prepend their own annotations); the
resolved successor equals the fall-through address in *all* cases. -/
theorem c5_composite_zero_fallthrough (entries : List Nat) (next dest cond fe pup : Nat)
    (hp : ¬(fe = 0 ∧ pup = 1)) :
    getSeqCode entries next dest 0 fe pup 1 cond 1 = .ok ("", some next, entries) ∧
    ∀ fe2 pup2 jsr2, ∃ t e2,
      getSeqCode entries next dest 0 fe2 pup2 1 cond jsr2 = .ok (t, some next, e2) := by
  constructor
  · simp [getSeqCode, seqTail, seqMain, hp]
  · intro fe2 pup2 jsr2
    by_cases hj : jsr2 = 0
    · subst hj
      exact ⟨"if " ++ JSR_COND.getD (dest &&& 7) "" ++ " jsr " ++ hexStr dest,
        entries ++ [dest], by simp [getSeqCode, seqTail, seqMain]⟩
    · simp only [getSeqCode, seqTail, seqMain, hj, if_neg (fun (h : jsr2 = 0 ∧ (0 : Nat) = 0) => hj h.1), if_false]
      simp only [and_self, if_true, reduceIte]
      split_ifs <;> exact ⟨_, _, rfl⟩

/-- C5 witness: the amended claim evaluated at fe = 1, pup = 0 and
fall-through address 7. -/
theorem c5_composite_zero_witness :
    getSeqCode [] 7 0 0 1 0 1 0 1 = .ok ("", some 7, []) ∧
    ∃ t e2, getSeqCode [] 7 0 0 0 1 1 0 0 = .ok (t, some 7, e2) :=
  ⟨(c5_composite_zero_fallthrough [] 7 0 0 1 0 (by simp)).1,
   (c5_composite_zero_fallthrough [] 7 0 0 1 0 (by simp)).2 0 1 0⟩

/-- C6: a word whose composite equals the all-stack encoding 0x222 with
caseFlag set resolves to the `ret` transfer (the source's rendering of
`return`, pop-and-jump) when the stack control is freeze = 0, push = 0,
and to a jump through the popped stack value `STK0` (prefixed by its
push annotation in the fe = 0, pup = 1 case) for any other stack
control; the successor is unresolved (`none`) in every case. -/
theorem c6_stack_composite (entries : List Nat) (next dest cond fe pup : Nat) :
    (fe = 0 ∧ pup = 0 →
      getSeqCode entries next dest 0x222 fe pup 1 cond 1 = .ok ("ret", none, entries)) ∧
    (¬(fe = 0 ∧ pup = 0) →
      getSeqCode entries next dest 0x222 fe pup 1 cond 1 =
        .ok ((if fe = 0 ∧ pup = 1 then "push " ++ hexStr next ++ "; " else "") ++ "jump STK0",
          none, entries)) := by
  constructor
  · rintro ⟨rfl, rfl⟩
    rfl
  · intro h
    by_cases hfp : fe = 0 ∧ pup = 1
    · obtain ⟨rfl, rfl⟩ := hfp
      rw [if_pos ⟨rfl, rfl⟩]
      simp [getSeqCode, seqTail, seqMain, string_append_eq_empty]
    · rw [if_neg hfp]
      simp [getSeqCode, seqTail, seqMain, h, hfp]

/-- C6 witness: both stack-control cases evaluated concretely. -/
theorem c6_stack_composite_witness :
    getSeqCode [] 1 0 0x222 0 0 1 0 1 = .ok ("ret", none, []) ∧
    getSeqCode [] 1 0 0x222 1 0 1 0 1 =
      .ok ((if (1 : Nat) = 0 ∧ (0 : Nat) = 1 then "push " ++ hexStr 1 ++ "; " else "") ++
        "jump STK0", none, []) :=
  ⟨(c6_stack_composite [] 1 0 0 0 0).1 ⟨rfl, rfl⟩,
   (c6_stack_composite [] 1 0 0 1 0).2 (by simp)⟩

/-- C7 counterexample: a word in the general composition case whose
*low* slice is sourced from the stack (s1s0 = 0x002) with caseFlag
clear is exactly the `const_mask & 0xf == 0` anomaly: the source raises
UnboundLocalError instead of returning an unresolved successor, so the
outcome *is* surfaced as a failure, contradicting the claim's
universal "never". -/
theorem c7_crash_counterexample :
    getSeqCode [] 1 0 2 1 1 0 12 1 = .error .unboundLocal := by
  rfl

/-- C7 amended: in the general per-slice composition case (composite
not one of the two reserved values), on every path that avoids the
decode-anomaly crash — caseFlag set, or caseFlag clear with the `jsr`
flag set, a valid `cond` and a constant-sourced low slice — a nonzero
`pop_mask` or `ar_mask` makes the resolved successor unresolved
(`none`) regardless of the branch family, and the transfer string
records which dynamic source is OR-combined into which bit mask. -/
theorem c7_dynamic_unresolved (entries : List Nat) (next dest s1s0 pup case_ cond : Nat)
    (ar pop cst tgt : Nat) (hslice : sliceFold s1s0 next dest = (ar, pop, cst, tgt))
    (hdyn : pop ≠ 0 ∨ ar ≠ 0) (h0 : s1s0 ≠ 0) (h222 : s1s0 ≠ 0x222)
    (hroute : case_ = 1 ∨ (case_ = 0 ∧ cst &&& 0xf ≠ 0 ∧
      (cond = 12 ∨ cond = 13 ∨ cond = 14 ∨ cond = 3 ∨ cond = 7 ∨ cond = 11))) :
    ∃ pre entries2,
      getSeqCode entries next dest s1s0 1 pup case_ cond 1 =
        .ok (pre ++ (if pop ≠ 0 then "|(STK0 & " ++ hexStr pop ++ ")" else "") ++
               (if ar ≠ 0 then "|(SAR & " ++ hexStr ar ++ ")" else ""),
             none, entries2) := by
  rcases hroute with rfl | ⟨rfl, hl, hc⟩
  · refine ⟨"jump " ++ hexStr tgt, entries, ?_⟩
    simp only [getSeqCode, seqTail, seqMain, seqGeneral, seqDispatch, hslice]
    simp only [h0, h222]
    norm_num
    split_ifs <;> simp_all [String.append_empty]
  · rcases hc with rfl | rfl | rfl | rfl | rfl | rfl <;>
      [refine ⟨switchStr "flags(ZM)" tgt 1, (tgt ||| 1) :: (tgt ||| 2) :: (tgt ||| 3) :: entries, ?_⟩;
       refine ⟨switchStr "flags(VH)" tgt 1, (tgt ||| 1) :: (tgt ||| 2) :: (tgt ||| 3) :: entries, ?_⟩;
       refine ⟨switchStr "pagetable???" tgt 1, (tgt ||| 1) :: (tgt ||| 2) :: (tgt ||| 3) :: entries, ?_⟩;
       refine ⟨switchStr "flags(IL)" tgt 4, (tgt ||| 4) :: (tgt ||| 8) :: (tgt ||| 12) :: entries, ?_⟩;
       refine ⟨switchStr "interrupts???" tgt 4, (tgt ||| 4) :: (tgt ||| 8) :: (tgt ||| 12) :: entries, ?_⟩;
       refine ⟨switchStr "dma???" tgt 4, (tgt ||| 4) :: (tgt ||| 8) :: (tgt ||| 12) :: entries, ?_⟩] <;>
    · simp only [getSeqCode, seqTail, seqMain, seqGeneral, seqDispatch, hslice, getSwitchTargets_eq]
      norm_num [hl]
      split_ifs <;> simp_all [String.append_empty]

/-- C7 witness: the amended claim evaluated at a word whose high slice
pops the stack (s1s0 = 0x200, caseFlag set): `jump 1|(STK0 & f00)`. -/
theorem c7_dynamic_unresolved_witness :
    ∃ pre entries2,
      getSeqCode [] 1 0 0x200 1 0 1 0 1 =
        .ok (pre ++ (if (0xf00 : Nat) ≠ 0 then "|(STK0 & " ++ hexStr 0xf00 ++ ")" else "") ++
               (if (0 : Nat) ≠ 0 then "|(SAR & " ++ hexStr 0 ++ ")" else ""),
             none, entries2) :=
  c7_dynamic_unresolved [] 1 0 0x200 0 1 0 0 0xf00 0xff 1 rfl (Or.inl (by norm_num))
    (by norm_num) (by norm_num) (Or.inl rfl)

/-- C8 counterexample: the source computes the dispatch entry address
as `map[i] + 0x100` (addition), not `map[i] | 0x100`: for the one-entry
opcode map `[0x100]`, the address `0x100 | 0x100 = 0x100` carries no
label and is not in the worklist; the binding was made at 0x200. -/
theorem c8_or_counterexample :
    labelsAt (initState [0x100]).labels (0x100 ||| 0x100) = [] ∧
    (0x100 ||| 0x100) ∉ (initState [0x100]).entries ∧
    labelsAt (initState [0x100]).labels 0x200 = ["Op_00"] := by
  refine ⟨rfl, by decide, rfl⟩

/-- C8 amended: seeding binds, for each index `i` with map value `v`,
the name `Op_<i>` (two-digit lowercase hex) to address `v + 0x100` in
the label binder, and the initial worklist is entry 0 followed by the
seeded addresses in map order; for map values below 0x100 (the
observed case) `v + 0x100` coincides with `v | 0x100`, so the
`[0x05]` scenario (address 0x105, name `Op_00`) holds as stated. -/
theorem c8_opcode_seeding (opcMap : List Nat) (i : Nat) (h : i < opcMap.length) :
    ("Op_" ++ hex2 i) ∈ labelsAt (initState opcMap).labels (opcMap.get ⟨i, h⟩ + 0x100) ∧
    (initState opcMap).entries = 0 :: opcMap.map (fun v => v + 0x100) ∧
    (∀ v, v < 0x100 → v + 0x100 = v ||| 0x100) := by
  refine ⟨?_, ?_, by decide⟩
  · have := initSeed_label_mem opcMap [] [0] 0 i h
    simpa [initState] using this
  · show (initSeed [] [0] 0 opcMap).2 = _
    rw [initSeed_snd]
    rfl

/-- C8 witness: the spec's `[0x05]` scenario: `Op_00` is bound at
0x105 and 0x105 is the second element of the initial worklist. -/
theorem c8_opcode_seeding_witness :
    ("Op_" ++ hex2 0) ∈ labelsAt (initState [0x05]).labels (0x05 + 0x100) ∧
    (initState [0x05]).entries = 0 :: [0x05].map (fun v => v + 0x100) :=
  ⟨(c8_opcode_seeding [0x05] 0 (by decide)).1, (c8_opcode_seeding [0x05] 0 (by decide)).2.1⟩

/-- C9: decoding one address touches the select histogram as follows:
for a zero (unused) word the histogram is unchanged, and for a nonzero
word exactly the bucket of the word's composite mux select grows by
one while every other bucket keeps its count. -/
theorem c9_histogram_update (st : MCState) (addr word : Nat) (st2 : MCState) (nxt : Option Nat)
    (h : disassembleOne st addr word = .ok (st2, nxt)) :
    (word = 0 → st2.selects = st.selects) ∧
    (word ≠ 0 → ∀ k, lookupCount st2.selects k =
      lookupCount st.selects k + (if k = s1s0Of word then 1 else 0)) := by
  by_cases hw : word = 0
  · refine ⟨fun _ => ?_, fun hne => absurd hw hne⟩
    rw [disassembleOne, if_pos hw] at h
    cases h
    rfl
  · refine ⟨fun heq => absurd heq hw, fun _ => ?_⟩
    simp only [disassembleOne, if_neg hw] at h
    rcases hgs : getSeqCode st.entries (addr + 1) (getBits word 16 11) (s1s0Of word)
        (getBits word 27 1) (getBits word 28 1) (getBits word 33 1) (getBits word 20 4)
        (getBits word 15 1) with e | ⟨s, n, e2⟩
    · rw [hgs] at h
      cases h
    · rw [hgs] at h
      cases h
      intro k
      exact lookupCount_bump st.selects (s1s0Of word) k

/-- C9 witness: decoding the nonzero word `c2Word` (select code 0)
from the empty initial state takes bucket 0 from count 0 to count 1. -/
theorem c9_histogram_update_witness :
    lookupCount ((⟨[], [0], [(0, 1)], [], [(0, some ⟨"READ.CONST:00", ""⟩)]⟩ : MCState)).selects 0 =
      lookupCount (initState []).selects 0 + (if (0 : Nat) = s1s0Of c2Word then 1 else 0) :=
  (c9_histogram_update (initState []) 0 c2Word
      ⟨[], [0], [(0, 1)], [], [(0, some ⟨"READ.CONST:00", ""⟩)]⟩ (some 1) rfl).2 (by decide) 0

/-- C10: structural invariant of the derived composite mux select: the
low select bit of the middle nibble equals the low select bit of the
high nibble (both are the inverted shift bit), the high select bit of
the middle nibble can be set only when the high select bit of the high
nibble is set (`s11 = mw_a6 AND s21`), and hence a composite whose
middle slice selects stack-pop or literal (value ≥ 2) while the high
slice selects fall-through or register (value < 2) never occurs. -/
theorem c10_select_structure (word : Nat) :
    ((s1s0Of word >>> 4) &&& 1) = ((s1s0Of word >>> 8) &&& 1) ∧
    (((s1s0Of word >>> 5) &&& 1) = 0 ∨ ((s1s0Of word >>> 9) &&& 1) = 1) ∧
    (((s1s0Of word >>> 4) &&& 3) < 2 ∨ ((s1s0Of word >>> 8) &&& 3) ≥ 2) :=
  composeSel_facts _ _ _ _ (getBits_lt word 29 2) (getBits_lt word 31 1)
    (getBits_lt word 32 1) (getBits_lt word 54 1)

/-- C3: for every ROM (the claim restricts to power-of-two lengths) and
every opcode map, whenever the driving loop finishes (the modelled run
returns `.ok`), every address of the ROM has been classified visited —
including addresses reachable only through dynamic transfers, which the
ascending exhaustive scan picks up as synthesized entry points — and no
address was marked visited or decoded more than once. -/
theorem c3_full_coverage (fuel : Nat) (code opcMap : List Nat) (st : MCState)
    (hpow : ∃ k, code.length = 2 ^ k)
    (hrun : disassemble fuel code opcMap = .ok st) :
    (∀ a, a < code.length → a ∈ st.visited) ∧
    st.visited.Nodup ∧ (st.recs.map Prod.fst).Nodup := by
  unfold disassemble at hrun
  rcases hel : entriesLoop fuel code (initState opcMap) with e | st1
  · rw [hel] at hrun
    exact Except.noConfusion hrun
  · rw [hel] at hrun
    obtain ⟨E1, E2, E3⟩ := entriesLoop_spec fuel code (initState opcMap) st1 hel
    have hI1 : Inv st1 := by
      refine E3 ⟨List.nodup_nil, List.nodup_nil, ?_⟩
      intro a ha
      exact absurd ha (List.not_mem_nil a)
    have h0mem : (0 : Nat) ∈ (initState opcMap).entries := by
      have he : (initState opcMap).entries = [0] ++ opcMap.map (fun v => v + 0x100) :=
        initSeed_snd opcMap [] [0] 0
      rw [he]
      exact List.mem_append_left _ (by simp)
    have hP : ∀ x, x < 1 → x < code.length → x ∈ st1.visited := by
      intro x hx hxlen
      interval_cases x
      exact E2 0 h0mem
    obtain ⟨hIf, hcov⟩ := scanLoop_spec fuel code st1 1 st hrun hI1 hP
    exact ⟨hcov, hIf.1, hIf.2.1⟩

/-- C3 witness: a completed run over the two-word all-zero ROM: both
addresses end visited (address 1 only via the exhaustive scan), each
exactly once. -/
theorem c3_full_coverage_witness :
    disassemble 16 [0, 0] [] = Except.ok c3SampleState ∧
    (∀ a, a < ([0, 0] : List Nat).length → a ∈ c3SampleState.visited) ∧
    c3SampleState.visited.Nodup ∧ (c3SampleState.recs.map Prod.fst).Nodup := by
  have hrun : disassemble 16 [0, 0] [] = Except.ok c3SampleState := rfl
  have h := c3_full_coverage 16 [0, 0] [] c3SampleState ⟨1, rfl⟩ hrun
  exact ⟨hrun, h.1, h.2.1, h.2.2⟩

end Microcode
